import Mathlib

/-!
Verification of the segment-statistics, progress and result data model of the
Arc Welder library (`arc_welder.h`).

Modelling conventions:
* C++ `double` values are modelled as exact rationals (`ℚ`).  Every operation
  the verified code performs on them is a comparison, an accumulation or a
  constant store, and comparisons of `double`s are exact, so the rational
  model is faithful for all bucket-selection logic; floating-point rounding
  of `+=` accumulation is abstracted away (the spec speaks of exact sums).
* C++ `int` and `long` are modelled as `ℤ`; none of the verified properties
  involves overflow.
* The `double` array `segment_statistic_lengths` is initialised from
  literals carrying the `f` suffix, so each stored value is the binary32
  (single-precision) rounding of the written decimal, converted exactly to
  `double`.  The rationals below are those exact values.
-/

namespace ArcWelder

/-- Line 48 of `arc_welder.h`: `static const int segment_statistic_lengths_count = 12;` -/
def segment_statistic_lengths_count : ℕ := 12

/-- Line 49 of `arc_welder.h`:
`const double segment_statistic_lengths[] = { 0.002f, 0.005f, 0.01f, 0.05f, 0.1f, 0.5f, 1.0f, 5.0f, 10.0f, 20.0f, 50.0f, 100.0f };`
Each literal carries the `f` suffix, so the stored `double` is the exact value
of the nearest binary32 float to the decimal:
`0.002f  = 8589935 * 2 ^ (-32)`, `0.005f = 10737418 * 2 ^ (-31)`,
`0.01f   = 10737418 * 2 ^ (-30)`, `0.05f  = 13421773 * 2 ^ (-28)`,
`0.1f    = 13421773 * 2 ^ (-27)`, and the remaining seven are exactly
representable.  (Theorem `C3_thresholds_are_float_roundings` checks the list
against an independent model of binary32 rounding.) -/
def segment_statistic_lengths : List ℚ :=
  [mkRat 8589935 4294967296, mkRat 10737418 2147483648, mkRat 10737418 1073741824,
   mkRat 13421773 268435456, mkRat 13421773 134217728, mkRat 1 2, 1, 5, 10, 20, 50, 100]

/-- C++ `struct segment_statistic` (lines 51-62): one histogram bucket,
covering lengths in `[min_mm, max_mm)` (with `max_mm = -1` marking the
overflow bucket) together with its hit count. -/
structure segment_statistic where
  min_mm : ℚ
  max_mm : ℚ
  count : ℤ
deriving DecidableEq, Repr

/-- The `segment_statistic(double, double)` constructor: stores the bounds and
zeroes the count. -/
def segment_statistic.mkStat (min_length_mm max_length_mm : ℚ) : segment_statistic :=
  { min_mm := min_length_mm, max_mm := max_length_mm, count := 0 }

/-- C++ `struct source_target_segment_statistics` (lines 64-310), data part.
The private `logger*` and `logger_type_` fields only feed logging and are
omitted; `max_width`/`max_precision` only feed pretty-printing but are kept to
make the state complete. -/
structure source_target_segment_statistics where
  source_segments : List segment_statistic
  target_segments : List segment_statistic
  total_length_source : ℚ
  total_length_target : ℚ
  max_width : ℤ
  max_precision : ℤ
  total_count_source : ℤ
  total_count_target : ℤ
  num_segment_tracking_lengths : ℤ
deriving DecidableEq, Repr

/-- The helper `utilities::get_num_digits` is declared in a header outside the provided
sources; its value only feeds the column-width field `max_width`, which no
verified property reads.  Modelled as the number of decimal digits of the
truncated integer part. -/
def get_num_digits (x : ℚ) : ℤ := (Nat.digits 10 x.floor.toNat).length

/-- The bucket-building loop of the constructor (lines 73-82): starting from
`current_min`, one bucket `[current_min, t)` per threshold `t`, then the
overflow bucket `[current_min, -1)`. -/
def build_segments (current_min : ℚ) : List ℚ → List segment_statistic
  | [] => [segment_statistic.mkStat current_min (-1)]
  | t :: rest => segment_statistic.mkStat current_min t :: build_segments t rest

/-- The value of `current_min` after the constructor loop: the last threshold,
or the initial value if there are none. -/
def final_min (current_min : ℚ) : List ℚ → ℚ
  | [] => current_min
  | t :: rest => final_min t rest

/-- The `source_target_segment_statistics(const double[], const int, logger*)`
constructor (lines 65-86).  The C++ form receives a pointer and a count and
iterates over the first `num_lengths` entries; the Lean form receives the
array as a list and takes the first `num_lengths` entries. -/
def source_target_segment_statistics.mkStats
    (segment_tracking_lengths : List ℚ) (num_lengths : ℕ) :
    source_target_segment_statistics :=
  { source_segments := build_segments 0 (segment_tracking_lengths.take num_lengths)
    target_segments := build_segments 0 (segment_tracking_lengths.take num_lengths)
    total_length_source := 0
    total_length_target := 0
    max_width := get_num_digits (final_min 0 (segment_tracking_lengths.take num_lengths))
    max_precision := 3
    total_count_source := 0
    total_count_target := 0
    num_segment_tracking_lengths := (num_lengths : ℤ) }

/-- The bucket-update loop of `update` (lines 116-124): walk the buckets and
increment the first one satisfying `min_mm <= length && max_mm > length`, or
the last bucket if none matched earlier (`(index + 1) == size`). -/
def update_segments (length : ℚ) : List segment_statistic → List segment_statistic
  | [] => []
  | stat :: rest =>
      if (stat.min_mm ≤ length ∧ stat.max_mm > length) ∨ rest = [] then
        { stat with count := stat.count + 1 } :: rest
      else
        stat :: update_segments length rest

/-- The member `source_target_segment_statistics::update(double length, bool is_source)`
(lines 98-125). -/
def source_target_segment_statistics.update (s : source_target_segment_statistics)
    (length : ℚ) (is_source : Bool) : source_target_segment_statistics :=
  if length ≤ 0 then s
  else if is_source then
    { s with
        total_count_source := s.total_count_source + 1
        total_length_source := s.total_length_source + length
        source_segments := update_segments length s.source_segments }
  else
    { s with
        total_count_target := s.total_count_target + 1
        total_length_target := s.total_length_target + length
        target_segments := update_segments length s.target_segments }

/-- A sequence of `update` calls, applied left to right; each element is a
`(length, is_source)` argument pair. -/
def apply_updates : source_target_segment_statistics → List (ℚ × Bool) →
    source_target_segment_statistics
  | s, [] => s
  | s, c :: rest => apply_updates (s.update c.1 c.2) rest

/-- A freshly constructed statistics object, as built by the
`arc_welder_progress()` constructor (line 314):
`segment_statistics(segment_statistic_lengths, segment_statistic_lengths_count, NULL)`. -/
def fresh_stats : source_target_segment_statistics :=
  source_target_segment_statistics.mkStats segment_statistic_lengths
    segment_statistic_lengths_count

/-- The bucket list selected by the `is_source` flag, mirroring the pointer
selection `stats = &source_segments` / `stats = &target_segments`
(lines 103-115). -/
def chosen_side (s : source_target_segment_statistics) (b : Bool) :
    List segment_statistic :=
  if b then s.source_segments else s.target_segments

/-- C++ `struct arc_welder_progress` (lines 313-341): the progress snapshot
handed to the progress callback. -/
structure arc_welder_progress where
  percent_complete : ℚ
  seconds_elapsed : ℚ
  seconds_remaining : ℚ
  gcodes_processed : ℤ
  lines_processed : ℤ
  points_compressed : ℤ
  arcs_created : ℤ
  compression_ratio : ℚ
  compression_percent : ℚ
  source_file_position : ℤ
  source_file_size : ℤ
  target_file_size : ℤ
  segment_statistics : source_target_segment_statistics
deriving DecidableEq, Repr

/-- The `arc_welder_progress()` constructor (lines 314-328): every numeric
field is zeroed and the statistics member is built from
`segment_statistic_lengths`. -/
def arc_welder_progress.mkProgress : arc_welder_progress :=
  { percent_complete := 0
    seconds_elapsed := 0
    seconds_remaining := 0
    gcodes_processed := 0
    lines_processed := 0
    points_compressed := 0
    arcs_created := 0
    compression_ratio := 0
    compression_percent := 0
    source_file_position := 0
    source_file_size := 0
    target_file_size := 0
    segment_statistics := fresh_stats }

/-- C++ `struct arc_welder_results` (lines 366-377): the value returned by
`arc_welder::process()`. -/
structure arc_welder_results where
  success : Bool
  cancelled : Bool
  message : String
  progress : arc_welder_progress

/-- The `arc_welder_results()` constructor (lines 367-372). -/
def arc_welder_results.mkResults : arc_welder_results :=
  { success := false
    cancelled := false
    message := ""
    progress := arc_welder_progress.mkProgress }

/-- Names for the C++ types occurring in the two interface declarations that
are embedded structurally (the `progress_callback` typedef and the
`process()` member declaration). -/
inductive cpp_type where
  | bool_t
  | int_t
  | string_t
  | progress_t
  | results_t
  | logger_ptr_t
deriving DecidableEq, Repr

/-- Line 364 of `arc_welder.h`:
`typedef bool(*progress_callback)(arc_welder_progress, logger* p_logger, int logger_type);`
embedded structurally as (parameter type list, return type). -/
def progress_callback_sig : List cpp_type × cpp_type :=
  ([cpp_type.progress_t, cpp_type.logger_ptr_t, cpp_type.int_t], cpp_type.bool_t)

/-- Line 385 of `arc_welder.h`: `arc_welder_results process();` embedded
structurally as (parameter type list, return type). -/
def process_sig : List cpp_type × cpp_type := ([], cpp_type.results_t)

/-- Round-to-nearest, ties-to-even, of a rational to an integer, phrased on
the numerator and denominator so that it reduces in the kernel: with
`f = ⌊r⌋`, the fractional part `r - f` equals `(r.num - f * r.den) / r.den`,
so comparing it with `1/2` is comparing `2 * (r.num - f * r.den)` with
`r.den`. -/
def round_half_even (r : ℚ) : ℤ :=
  let f := ⌊r⌋
  let twice_rem : ℤ := 2 * (r.num - f * (r.den : ℤ))
  if twice_rem < (r.den : ℤ) then f
  else if (r.den : ℤ) < twice_rem then f + 1
  else if f % 2 = 0 then f else f + 1

/-- Number of binary digits of `n`, by structural (fuel) recursion so that it
reduces in the kernel; `bitlen_aux fuel n` is exact whenever `n ≤ 2 ^ fuel`. -/
def bitlen_aux : ℕ → ℕ → ℕ
  | 0, _ => 0
  | fuel + 1, n => if n = 0 then 0 else bitlen_aux fuel (n / 2) + 1

/-- Number of binary digits of `n` (`0` for `0`); `n` itself is enough fuel. -/
def bitlen (n : ℕ) : ℕ := bitlen_aux n n

/-- Power of two in `ℚ`: `pow2 k = 2 ^ k`, built with `mkRat` so that it reduces in the
kernel (see lemma `pow2_eq`). -/
def pow2 : ℤ → ℚ
  | Int.ofNat n => mkRat ((2 ^ n : ℕ) : ℤ) 1
  | Int.negSucc n => mkRat 1 (2 ^ (n + 1))

/-- Shifted multiplication in `ℚ`: `mul_pow2 q k = q * 2 ^ k`, built with `mkRat` on the numerator and
denominator so that it reduces in the kernel (see lemma `mul_pow2_eq`). -/
def mul_pow2 (q : ℚ) : ℤ → ℚ
  | Int.ofNat n => mkRat (q.num * ((2 ^ n : ℕ) : ℤ)) q.den
  | Int.negSucc n => mkRat q.num (q.den * 2 ^ (n + 1))

/-- For `q > 0`, the exponent `e` with `2 ^ e ≤ q < 2 ^ (e + 1)`.  The bit
lengths of numerator and denominator give a first guess correct to within
one, which the comparisons then fix up. -/
def exp2_of (q : ℚ) : ℤ :=
  let e0 : ℤ := (bitlen q.num.toNat : ℤ) - (bitlen q.den : ℤ)
  if pow2 (e0 + 1) ≤ q then e0 + 1
  else if pow2 e0 ≤ q then e0
  else e0 - 1

/-- The exact rational value of the binary32 (IEEE single-precision) rounding
of a rational, for inputs in the positive normal range (all twelve decimals
of `segment_statistic_lengths` are such); nonpositive inputs map to `0`.
With `e` the input's binade exponent, the significand `q * 2 ^ (23 - e)` lies
in `[2 ^ 23, 2 ^ 24)` and is rounded to the nearest integer, ties to even,
giving the value `round_half_even (q * 2 ^ (23 - e)) * 2 ^ (e - 23)`. -/
def to_float32 (q : ℚ) : ℚ :=
  if q ≤ 0 then 0
  else
    let e : ℤ := exp2_of q
    mul_pow2 ((round_half_even (mul_pow2 q ((23 : ℤ) - e)) : ℤ) : ℚ) (e - (23 : ℤ))

/-- Default element for positional access into bucket lists. -/
def nth (l : List segment_statistic) (i : ℕ) : segment_statistic :=
  l.getD i (segment_statistic.mkStat 0 0)

/-- The `stat.count++` step of the update loop (line 121). -/
def inc_count (st : segment_statistic) : segment_statistic :=
  { st with count := st.count + 1 }

/-- The bucket boundaries of a bucket list, forgetting the counts. -/
def ranges (l : List segment_statistic) : List (ℚ × ℚ) :=
  l.map fun st => (st.min_mm, st.max_mm)

/-- Sum of the bucket counts of a bucket list. -/
def counts_sum (l : List segment_statistic) : ℤ :=
  (l.map segment_statistic.count).sum

/-- The index at which the update loop (lines 116-124) stops: the first bucket
satisfying `min_mm <= length && max_mm > length`, or the last index if none
matched earlier. -/
def find_bucket (length : ℚ) : List segment_statistic → ℕ
  | [] => 0
  | stat :: rest =>
      if (stat.min_mm ≤ length ∧ stat.max_mm > length) ∨ rest = [] then 0
      else find_bucket length rest + 1

/-- Strictly increasing chain: `m` below every threshold, thresholds sorted. -/
abbrev chain_lt (m : ℚ) (ts : List ℚ) : Prop := List.Chain' (· < ·) (m :: ts)

/-- The two-sided statistics invariant of C2: on each side the bucket counts
sum to the recorded total count. -/
def stats_inv (s : source_target_segment_statistics) : Prop :=
  counts_sum s.source_segments = s.total_count_source ∧
  counts_sum s.target_segments = s.total_count_target

/-- Selects an `update` call with positive length and `is_source = true`. -/
def p_source (c : ℚ × Bool) : Bool := decide (0 < c.1) && c.2

/-- Selects an `update` call with positive length and `is_source = false`. -/
def p_target (c : ℚ × Bool) : Bool := decide (0 < c.1) && !c.2

/-- Coherence of the kernel-friendly power function with `zpow`. -/
theorem pow2_eq (k : ℤ) : pow2 k = (2 : ℚ) ^ k := by
  cases k with
  | ofNat n => simp [pow2, Rat.mkRat_eq_div, zpow_natCast]
  | negSucc n => simp [pow2, Rat.mkRat_eq_div, zpow_negSucc]

/-- Coherence of the kernel-friendly shifted multiplication with `zpow`. -/
theorem mul_pow2_eq (q : ℚ) (k : ℤ) : mul_pow2 q k = q * (2 : ℚ) ^ k := by
  have hq : ((q.num : ℚ)) / ((q.den : ℚ)) = q := Rat.num_div_den q
  cases k with
  | ofNat n =>
      rw [mul_pow2, Rat.mkRat_eq_div]
      push_cast
      rw [Int.ofNat_eq_natCast, zpow_natCast]
      conv_rhs => rw [← hq]
      ring
  | negSucc n =>
      rw [mul_pow2, Rat.mkRat_eq_div, zpow_negSucc]
      push_cast
      conv_rhs => rw [← hq]
      ring

theorem build_segments_ne_nil (m : ℚ) (ts : List ℚ) : build_segments m ts ≠ [] := by
  cases ts <;> simp [build_segments]

theorem length_build_segments (m : ℚ) (ts : List ℚ) :
    (build_segments m ts).length = ts.length + 1 := by
  induction ts generalizing m with
  | nil => simp [build_segments]
  | cons t rest ih => simp [build_segments, ih]

theorem map_min_build_segments (m : ℚ) (ts : List ℚ) :
    (build_segments m ts).map segment_statistic.min_mm = m :: ts := by
  induction ts generalizing m with
  | nil => simp [build_segments, segment_statistic.mkStat]
  | cons t rest ih => simp [build_segments, segment_statistic.mkStat, ih]

theorem map_max_build_segments (m : ℚ) (ts : List ℚ) :
    (build_segments m ts).map segment_statistic.max_mm = ts ++ [-1] := by
  induction ts generalizing m with
  | nil => simp [build_segments, segment_statistic.mkStat]
  | cons t rest ih => simp [build_segments, segment_statistic.mkStat, ih]

theorem map_count_build_segments (m : ℚ) (ts : List ℚ) :
    (build_segments m ts).map segment_statistic.count = List.replicate (ts.length + 1) 0 := by
  induction ts generalizing m with
  | nil => simp [build_segments, segment_statistic.mkStat, List.replicate]
  | cons t rest ih => simp [build_segments, segment_statistic.mkStat, ih, List.replicate]

theorem nth_cons_zero (a : segment_statistic) (l : List segment_statistic) :
    nth (a :: l) 0 = a := rfl

theorem nth_cons_succ (a : segment_statistic) (l : List segment_statistic) (i : ℕ) :
    nth (a :: l) (i + 1) = nth l i := rfl

theorem ranges_update_segments (len : ℚ) (l : List segment_statistic) :
    ranges (update_segments len l) = ranges l := by
  induction l with
  | nil => rfl
  | cons a l ih =>
      rw [update_segments]
      split
      · simp [ranges]
      · simp [ranges] at ih ⊢
        exact ih

theorem length_update_segments (len : ℚ) (l : List segment_statistic) :
    (update_segments len l).length = l.length := by
  induction l with
  | nil => rfl
  | cons a l ih =>
      rw [update_segments]
      split
      · simp
      · simp [ih]

theorem find_bucket_lt_length (len : ℚ) (l : List segment_statistic) (h : l ≠ []) :
    find_bucket len l < l.length := by
  induction l with
  | nil => exact absurd rfl h
  | cons a l ih =>
      rw [find_bucket]
      split
      · simp
      · rename_i hcond
        have hl : l ≠ [] := fun he => hcond (Or.inr he)
        exact Nat.succ_lt_succ (ih hl)

theorem update_segments_eq_set (len : ℚ) (l : List segment_statistic) (h : l ≠ []) :
    update_segments len l
      = l.set (find_bucket len l) (inc_count (nth l (find_bucket len l))) := by
  induction l with
  | nil => exact absurd rfl h
  | cons a l ih =>
      rw [update_segments, find_bucket]
      split
      · simp [inc_count, nth_cons_zero]
      · rename_i hcond
        have hl : l ≠ [] := fun he => hcond (Or.inr he)
        simp [nth_cons_succ, ih hl]

theorem counts_sum_update_segments (len : ℚ) (l : List segment_statistic) (h : l ≠ []) :
    counts_sum (update_segments len l) = counts_sum l + 1 := by
  induction l with
  | nil => exact absurd rfl h
  | cons a l ih =>
      rw [update_segments]
      split
      · simp [counts_sum]
        ring
      · rename_i hcond
        have hl : l ≠ [] := fun he => hcond (Or.inr he)
        simp only [counts_sum, List.map_cons, List.sum_cons] at ih ⊢
        rw [ih hl]
        ring

theorem length_eq_of_ranges {l l' : List segment_statistic} (h : ranges l = ranges l') :
    l.length = l'.length := by
  have := congrArg List.length h
  simpa [ranges] using this

theorem nth_minmax_eq_of_ranges {l l' : List segment_statistic} (h : ranges l = ranges l') :
    ∀ j, (nth l j).min_mm = (nth l' j).min_mm ∧ (nth l j).max_mm = (nth l' j).max_mm := by
  induction l generalizing l' with
  | nil =>
      have hl' : l' = [] := by
        cases l' with
        | nil => rfl
        | cons b m => simp [ranges] at h
      subst hl'
      exact fun j => ⟨rfl, rfl⟩
  | cons a l ih =>
      cases l' with
      | nil => simp [ranges] at h
      | cons b m =>
          simp only [ranges, List.map_cons, List.cons.injEq, Prod.mk.injEq] at h
          intro j
          cases j with
          | zero => exact ⟨h.1.1, h.1.2⟩
          | succ j =>
              exact ih (show ranges l = ranges m from h.2) j

theorem find_bucket_congr (len : ℚ) {l l' : List segment_statistic}
    (h : ranges l = ranges l') : find_bucket len l = find_bucket len l' := by
  induction l generalizing l' with
  | nil =>
      have hl' : l' = [] := by
        cases l' with
        | nil => rfl
        | cons b m => simp [ranges] at h
      subst hl'
      rfl
  | cons a l ih =>
      cases l' with
      | nil => simp [ranges] at h
      | cons b m =>
          simp only [ranges, List.map_cons, List.cons.injEq, Prod.mk.injEq] at h
          have hnil : l = [] ↔ m = [] := by
            constructor
            · intro he
              subst he
              exact (List.map_eq_nil_iff.mp h.2.symm)
            · intro he
              subst he
              exact (List.map_eq_nil_iff.mp h.2)
          rw [find_bucket, find_bucket, h.1.1, h.1.2,
            ih (show ranges l = ranges m from h.2)]
          exact if_congr (or_congr Iff.rfl hnil) rfl rfl

theorem chain_lt_cons {m t : ℚ} {rest : List ℚ} :
    chain_lt m (t :: rest) ↔ m < t ∧ chain_lt t rest := List.chain'_cons

theorem le_final_min (m : ℚ) (ts : List ℚ) (hc : chain_lt m ts) : m ≤ final_min m ts := by
  induction ts generalizing m with
  | nil => exact le_refl m
  | cons t rest ih =>
      have h := chain_lt_cons.mp hc
      rw [final_min]
      exact le_trans (le_of_lt h.1) (ih t h.2)

theorem le_min_build_segments (m : ℚ) (ts : List ℚ) (hc : chain_lt m ts) :
    ∀ j, j < (build_segments m ts).length →
      m ≤ (nth (build_segments m ts) j).min_mm := by
  induction ts generalizing m with
  | nil =>
      intro j hj
      rw [build_segments] at hj ⊢
      have hj0 : j = 0 := Nat.lt_one_iff.mp (by simpa using hj)
      subst hj0
      simp [nth_cons_zero, segment_statistic.mkStat]
  | cons t rest ih =>
      intro j hj
      rw [build_segments] at hj ⊢
      cases j with
      | zero => simp [nth_cons_zero, segment_statistic.mkStat]
      | succ j =>
          have h := chain_lt_cons.mp hc
          rw [nth_cons_succ]
          refine le_trans (le_of_lt h.1) (ih t h.2 j ?_)
          simpa using hj

theorem find_bucket_build_lt (m len : ℚ) (ts : List ℚ) (hm : m ≤ len)
    (hc : chain_lt m ts) (hl : len < final_min m ts) :
    (nth (build_segments m ts) (find_bucket len (build_segments m ts))).min_mm ≤ len ∧
    len < (nth (build_segments m ts) (find_bucket len (build_segments m ts))).max_mm ∧
    (∀ j, j < (build_segments m ts).length →
      (nth (build_segments m ts) j).min_mm ≤ len →
      len < (nth (build_segments m ts) j).max_mm →
      j = find_bucket len (build_segments m ts)) := by
  induction ts generalizing m with
  | nil =>
      rw [final_min] at hl
      exact absurd hl (not_lt.mpr hm)
  | cons t rest ih =>
      rw [final_min] at hl
      have h := chain_lt_cons.mp hc
      by_cases hlt : len < t
      · have hcond : ((segment_statistic.mkStat m t).min_mm ≤ len ∧
            (segment_statistic.mkStat m t).max_mm > len) ∨ build_segments t rest = [] :=
          Or.inl ⟨hm, hlt⟩
        rw [build_segments, find_bucket, if_pos hcond]
        refine ⟨hm, hlt, ?_⟩
        intro j hj hmin hmax
        cases j with
        | zero => rfl
        | succ j =>
            rw [nth_cons_succ] at hmin
            have hge := le_min_build_segments t rest h.2 j (by simpa using hj)
            exact absurd (le_trans hge hmin) (not_le.mpr hlt)
      · have htle : t ≤ len := not_lt.mp hlt
        have hcond : ¬ (((segment_statistic.mkStat m t).min_mm ≤ len ∧
            (segment_statistic.mkStat m t).max_mm > len) ∨ build_segments t rest = []) := by
          rintro (⟨h1, h2⟩ | hnil)
          · exact hlt h2
          · exact build_segments_ne_nil t rest hnil
        rw [build_segments, find_bucket, if_neg hcond]
        obtain ⟨ih1, ih2, ih3⟩ := ih t htle h.2 hl
        rw [nth_cons_succ]
        refine ⟨ih1, ih2, ?_⟩
        intro j hj hmin hmax
        cases j with
        | zero =>
            rw [nth_cons_zero] at hmax
            exact absurd hmax hlt
        | succ j =>
            rw [nth_cons_succ] at hmin hmax
            rw [ih3 j (by simpa using hj) hmin hmax]

theorem find_bucket_build_ge (m len : ℚ) (ts : List ℚ) (hc : chain_lt m ts)
    (hl : final_min m ts ≤ len) :
    find_bucket len (build_segments m ts) + 1 = (build_segments m ts).length := by
  induction ts generalizing m with
  | nil => simp [build_segments, find_bucket]
  | cons t rest ih =>
      rw [final_min] at hl
      have h := chain_lt_cons.mp hc
      have htle : t ≤ len := le_trans (le_final_min t rest h.2) hl
      have hcond : ¬ (((segment_statistic.mkStat m t).min_mm ≤ len ∧
          (segment_statistic.mkStat m t).max_mm > len) ∨ build_segments t rest = []) := by
        rintro (⟨h1, h2⟩ | hnil)
        · exact absurd h2 (not_lt.mpr htle)
        · exact build_segments_ne_nil t rest hnil
      rw [build_segments, find_bucket, if_neg hcond, List.length_cons,
        ← ih t h.2 hl]

theorem apply_updates_preserve (P : source_target_segment_statistics → Prop)
    (hP : ∀ s (len : ℚ) (b : Bool), P s → P (s.update len b)) :
    ∀ (calls : List (ℚ × Bool)) s, P s → P (apply_updates s calls) := by
  intro calls
  induction calls with
  | nil => exact fun s h => h
  | cons c rest ih => exact fun s h => ih _ (hP s c.1 c.2 h)

theorem update_segments_ne_nil (len : ℚ) (l : List segment_statistic) (h : l ≠ []) :
    update_segments len l ≠ [] := by
  cases l with
  | nil => exact absurd rfl h
  | cons a l =>
      rw [update_segments]
      split <;> simp

theorem ranges_update_stats (s : source_target_segment_statistics) (len : ℚ) (b : Bool) :
    ranges (s.update len b).source_segments = ranges s.source_segments ∧
    ranges (s.update len b).target_segments = ranges s.target_segments := by
  rw [source_target_segment_statistics.update]
  split
  · exact ⟨rfl, rfl⟩
  · split
    · exact ⟨ranges_update_segments len _, rfl⟩
    · exact ⟨rfl, ranges_update_segments len _⟩

theorem take_count_lengths :
    segment_statistic_lengths.take segment_statistic_lengths_count
      = segment_statistic_lengths := rfl

theorem fresh_stats_source :
    fresh_stats.source_segments = build_segments 0 segment_statistic_lengths := rfl

theorem fresh_stats_target :
    fresh_stats.target_segments = build_segments 0 segment_statistic_lengths := rfl

theorem ranges_reachable (calls : List (ℚ × Bool)) :
    ranges (apply_updates fresh_stats calls).source_segments
        = ranges (build_segments 0 segment_statistic_lengths) ∧
    ranges (apply_updates fresh_stats calls).target_segments
        = ranges (build_segments 0 segment_statistic_lengths) := by
  refine apply_updates_preserve
    (fun s => ranges s.source_segments = ranges (build_segments 0 segment_statistic_lengths) ∧
      ranges s.target_segments = ranges (build_segments 0 segment_statistic_lengths))
    ?_ calls fresh_stats ⟨rfl, rfl⟩
  intro s len b h
  have hu := ranges_update_stats s len b
  exact ⟨hu.1.trans h.1, hu.2.trans h.2⟩

theorem chain_lt_lengths : chain_lt 0 segment_statistic_lengths := by
  simp only [chain_lt, segment_statistic_lengths, List.chain'_cons, List.chain'_singleton,
    and_true]
  decide

theorem final_min_lengths : final_min 0 segment_statistic_lengths = 100 := rfl

theorem chosen_side_reachable (calls : List (ℚ × Bool)) (b : Bool) :
    ranges (chosen_side (apply_updates fresh_stats calls) b)
      = ranges (build_segments 0 segment_statistic_lengths) := by
  cases b
  · exact (ranges_reachable calls).2
  · exact (ranges_reachable calls).1

theorem chosen_side_ne_nil (calls : List (ℚ × Bool)) (b : Bool) :
    chosen_side (apply_updates fresh_stats calls) b ≠ [] := by
  intro he
  have h := chosen_side_reachable calls b
  rw [he] at h
  exact build_segments_ne_nil 0 _ (List.map_eq_nil_iff.mp h.symm)

theorem chosen_side_update (s : source_target_segment_statistics) (len : ℚ) (b : Bool)
    (h : 0 < len) :
    chosen_side (s.update len b) b = update_segments len (chosen_side s b) := by
  rw [source_target_segment_statistics.update, if_neg (not_le.mpr h)]
  cases b <;> simp [chosen_side]

/-- C3 counterexample: the first stored bucket boundary (the upper bound of
bucket 0, written `0.002f` in the source) is not the exact decimal value
`0.002 = 2/1000`: the `f` suffix makes it the binary32 rounding
`8589935 * 2 ^ (-32)`. -/
theorem C3_counterexample :
    (nth fresh_stats.source_segments 0).max_mm ≠ mkRat 2 1000 := by decide

/-- C3 (amended): the twelve thresholds stored in `segment_statistic_lengths`
are exactly the binary32 (single-precision) roundings of the decimals
0.002, 0.005, 0.01, 0.05, 0.1, 0.5, 1, 5, 10, 20, 50, 100 (the last seven of
which are exactly representable), there are twelve of them, the constructed
bucket boundaries are `0 :: thresholds` (lower) and `thresholds ++ [-1]`
(upper, with `-1` marking the `>= 100 mm` overflow bucket), identically on
the source and target sides. -/
theorem C3_thresholds_are_float_roundings :
    segment_statistic_lengths
        = List.map to_float32
            [mkRat 2 1000, mkRat 5 1000, mkRat 1 100, mkRat 5 100, mkRat 1 10,
             mkRat 1 2, 1, 5, 10, 20, 50, 100] ∧
    segment_statistic_lengths.length = segment_statistic_lengths_count ∧
    fresh_stats.source_segments.map segment_statistic.min_mm
        = 0 :: segment_statistic_lengths ∧
    fresh_stats.source_segments.map segment_statistic.max_mm
        = segment_statistic_lengths ++ [-1] ∧
    fresh_stats.target_segments = fresh_stats.source_segments := by
  refine ⟨by decide, rfl, ?_, ?_, rfl⟩
  · rw [fresh_stats_source, map_min_build_segments]
  · rw [fresh_stats_source, map_max_build_segments]

/-- C5: constructing the statistics from a list of `n` thresholds yields, on
each side, `n + 1` buckets whose lower bounds are `0 :: thresholds` and upper
bounds are `thresholds ++ [-1]` — so the ranges are contiguous, start at `0`,
bucket `i` spans `[t_(i-1), t_i)`, and the final overflow bucket starts at
the last threshold and carries the `-1` sentinel — with every bucket count
and all four totals equal to zero, the target side equal to the source
side. -/
theorem C5_constructor_shape (ts : List ℚ) :
    (source_target_segment_statistics.mkStats ts ts.length).source_segments.length
        = ts.length + 1 ∧
    (source_target_segment_statistics.mkStats ts ts.length).target_segments
        = (source_target_segment_statistics.mkStats ts ts.length).source_segments ∧
    (source_target_segment_statistics.mkStats ts ts.length).source_segments.map
        segment_statistic.min_mm = 0 :: ts ∧
    (source_target_segment_statistics.mkStats ts ts.length).source_segments.map
        segment_statistic.max_mm = ts ++ [-1] ∧
    (source_target_segment_statistics.mkStats ts ts.length).source_segments.map
        segment_statistic.count = List.replicate (ts.length + 1) 0 ∧
    (source_target_segment_statistics.mkStats ts ts.length).total_length_source = 0 ∧
    (source_target_segment_statistics.mkStats ts ts.length).total_length_target = 0 ∧
    (source_target_segment_statistics.mkStats ts ts.length).total_count_source = 0 ∧
    (source_target_segment_statistics.mkStats ts ts.length).total_count_target = 0 := by
  simp [source_target_segment_statistics.mkStats, List.take_length,
    length_build_segments, map_min_build_segments, map_max_build_segments,
    map_count_build_segments]

/-- C6: an `update` call with `length <= 0` returns at the guard
(lines 100-101) and leaves the entire statistics state unchanged. -/
theorem C6_nonpositive_length_no_change (s : source_target_segment_statistics)
    (len : ℚ) (b : Bool) (h : len ≤ 0) : s.update len b = s := by
  rw [source_target_segment_statistics.update, if_pos h]

/-- Witness for C6 at `s = fresh_stats`, `len = 0`, `b = true`. -/
theorem C6_witness : (0 : ℚ) ≤ 0 ∧ fresh_stats.update 0 true = fresh_stats :=
  ⟨le_refl 0, C6_nonpositive_length_no_change fresh_stats 0 true (le_refl 0)⟩

/-- C7: `update` with `is_source = true` changes no target-side field, and
`update` with `is_source = false` changes no source-side field. -/
theorem C7_update_frames_other_side (s : source_target_segment_statistics) (len : ℚ) :
    ((s.update len true).total_length_target = s.total_length_target ∧
      (s.update len true).total_count_target = s.total_count_target ∧
      (s.update len true).target_segments = s.target_segments) ∧
    ((s.update len false).total_length_source = s.total_length_source ∧
      (s.update len false).total_count_source = s.total_count_source ∧
      (s.update len false).source_segments = s.source_segments) := by
  by_cases h : len ≤ 0 <;>
    simp [source_target_segment_statistics.update, h]

/-- C8: `process()` is declared to return `arc_welder_results` (line 385), and
a value of that record type consists of exactly a `success` boolean, a
`cancelled` boolean, a `message` string, and an `arc_welder_progress`
snapshot (which, by its definition, carries the `segment_statistics`): the
four-field constructor is a bijection from `Bool × Bool × String ×
arc_welder_progress` onto `arc_welder_results`. -/
theorem C8_results_record_fields :
    process_sig.2 = cpp_type.results_t ∧
    Function.Bijective (fun x : Bool × Bool × String × arc_welder_progress =>
      arc_welder_results.mk x.1 x.2.1 x.2.2.1 x.2.2.2) := by
  refine ⟨rfl, ?_, ?_⟩
  · rintro ⟨a1, a2, a3, a4⟩ ⟨b1, b2, b3, b4⟩ hab
    simp only [arc_welder_results.mk.injEq] at hab
    obtain ⟨h1, h2, h3, h4⟩ := hab
    subst h1
    subst h2
    subst h3
    subst h4
    rfl
  · intro r
    cases r with
    | mk a b c d => exact ⟨⟨a, b, c, d⟩, rfl⟩

/-- C9: the progress snapshot carries percent complete, elapsed and remaining
seconds, the four counters, both file sizes, and the compression ratio and
percent, and the `arc_welder_progress()` constructor zeroes every one of
them. -/
theorem C9_progress_fields_zero_init :
    arc_welder_progress.mkProgress.percent_complete = 0 ∧
    arc_welder_progress.mkProgress.seconds_elapsed = 0 ∧
    arc_welder_progress.mkProgress.seconds_remaining = 0 ∧
    arc_welder_progress.mkProgress.gcodes_processed = 0 ∧
    arc_welder_progress.mkProgress.lines_processed = 0 ∧
    arc_welder_progress.mkProgress.points_compressed = 0 ∧
    arc_welder_progress.mkProgress.arcs_created = 0 ∧
    arc_welder_progress.mkProgress.source_file_size = 0 ∧
    arc_welder_progress.mkProgress.target_file_size = 0 ∧
    arc_welder_progress.mkProgress.compression_ratio = 0 ∧
    arc_welder_progress.mkProgress.compression_percent = 0 :=
  ⟨rfl, rfl, rfl, rfl, rfl, rfl, rfl, rfl, rfl, rfl, rfl⟩

/-- C10 counterexample: the `progress_callback` typedef does not take the
progress snapshot as its only parameter — it also receives a `logger*` and a
logger-type `int` (line 364). -/
theorem C10_counterexample :
    progress_callback_sig.1 ≠ [cpp_type.progress_t] := by decide

/-- C10 (amended): the progress callback takes a progress snapshot together
with a logger pointer and a logger-type integer, and returns a single
boolean (continue = `true`, cancel = `false`). -/
theorem C10_callback_signature :
    progress_callback_sig
      = ([cpp_type.progress_t, cpp_type.logger_ptr_t, cpp_type.int_t],
         cpp_type.bool_t) := rfl

/-- C1: on any statistics state reachable from a fresh construction, an
`update` call with positive length modifies the chosen side by incrementing
exactly one bucket count (index `i`, via `List.set` with `inc_count`): when
the length is below the final threshold (100 mm, the last entry of
`segment_statistic_lengths`, stored exactly), `i` is the unique bucket with
`min_mm <= length < max_mm`; when the length is at least 100 mm, `i` is the
last (overflow) bucket. -/
theorem C1_update_increments_exactly_one_bucket (calls : List (ℚ × Bool)) (len : ℚ)
    (b : Bool) (h : 0 < len) :
    ∃ i : ℕ,
      i < (chosen_side (apply_updates fresh_stats calls) b).length ∧
      chosen_side ((apply_updates fresh_stats calls).update len b) b
        = (chosen_side (apply_updates fresh_stats calls) b).set i
            (inc_count (nth (chosen_side (apply_updates fresh_stats calls) b) i)) ∧
      ((len < 100 ∧
          (nth (chosen_side (apply_updates fresh_stats calls) b) i).min_mm ≤ len ∧
          len < (nth (chosen_side (apply_updates fresh_stats calls) b) i).max_mm ∧
          ∀ j, j < (chosen_side (apply_updates fresh_stats calls) b).length →
            (nth (chosen_side (apply_updates fresh_stats calls) b) j).min_mm ≤ len →
            len < (nth (chosen_side (apply_updates fresh_stats calls) b) j).max_mm →
            j = i) ∨
        (100 ≤ len ∧
          i + 1 = (chosen_side (apply_updates fresh_stats calls) b).length)) := by
  have hr := chosen_side_reachable calls b
  have hne := chosen_side_ne_nil calls b
  refine ⟨find_bucket len (chosen_side (apply_updates fresh_stats calls) b),
    find_bucket_lt_length len _ hne, ?_, ?_⟩
  · rw [chosen_side_update _ len b h]
    exact update_segments_eq_set len _ hne
  · have hcongr := find_bucket_congr len hr
    have hmm := nth_minmax_eq_of_ranges hr
    have hlen := length_eq_of_ranges hr
    rcases lt_or_le len 100 with hlt | hge
    · left
      have hb := find_bucket_build_lt 0 len segment_statistic_lengths (le_of_lt h)
        chain_lt_lengths (by rw [final_min_lengths]; exact hlt)
      refine ⟨hlt, ?_, ?_, ?_⟩
      · rw [(hmm _).1, hcongr]
        exact hb.1
      · rw [(hmm _).2, hcongr]
        exact hb.2.1
      · intro j hj hmin hmax
        rw [hcongr]
        refine hb.2.2 j ?_ ?_ ?_
        · rw [← hlen]
          exact hj
        · rw [← (hmm j).1]
          exact hmin
        · rw [← (hmm j).2]
          exact hmax
    · right
      refine ⟨hge, ?_⟩
      rw [hcongr, hlen]
      exact find_bucket_build_ge 0 len segment_statistic_lengths chain_lt_lengths
        (by rw [final_min_lengths]; exact hge)

/-- Witness for C1 at `calls = []`, `len = 3`, `b = true`. -/
theorem C1_witness :
    (0 : ℚ) < 3 ∧
    ∃ i : ℕ,
      i < (chosen_side (apply_updates fresh_stats []) true).length ∧
      chosen_side ((apply_updates fresh_stats []).update 3 true) true
        = (chosen_side (apply_updates fresh_stats []) true).set i
            (inc_count (nth (chosen_side (apply_updates fresh_stats []) true) i)) ∧
      (((3 : ℚ) < 100 ∧
          (nth (chosen_side (apply_updates fresh_stats []) true) i).min_mm ≤ 3 ∧
          (3 : ℚ) < (nth (chosen_side (apply_updates fresh_stats []) true) i).max_mm ∧
          ∀ j, j < (chosen_side (apply_updates fresh_stats []) true).length →
            (nth (chosen_side (apply_updates fresh_stats []) true) j).min_mm ≤ 3 →
            (3 : ℚ) < (nth (chosen_side (apply_updates fresh_stats []) true) j).max_mm →
            j = i) ∨
        ((100 : ℚ) ≤ 3 ∧
          i + 1 = (chosen_side (apply_updates fresh_stats []) true).length)) :=
  ⟨by norm_num, C1_update_increments_exactly_one_bucket [] 3 true (by norm_num)⟩

theorem counts_sum_build_segments (m : ℚ) (ts : List ℚ) :
    counts_sum (build_segments m ts) = 0 := by
  simp [counts_sum, map_count_build_segments]

theorem stats_inv_update (s : source_target_segment_statistics) (len : ℚ) (b : Bool)
    (hs : s.source_segments ≠ []) (ht : s.target_segments ≠ [])
    (h : stats_inv s) : stats_inv (s.update len b) := by
  rw [source_target_segment_statistics.update]
  split
  · exact h
  · split
    · refine ⟨?_, h.2⟩
      show counts_sum (update_segments len s.source_segments)
        = s.total_count_source + 1
      rw [counts_sum_update_segments len _ hs, h.1]
    · refine ⟨h.1, ?_⟩
      show counts_sum (update_segments len s.target_segments)
        = s.total_count_target + 1
      rw [counts_sum_update_segments len _ ht, h.2]

theorem update_sides_ne_nil (s : source_target_segment_statistics) (len : ℚ) (b : Bool)
    (hs : s.source_segments ≠ []) (ht : s.target_segments ≠ []) :
    (s.update len b).source_segments ≠ [] ∧ (s.update len b).target_segments ≠ [] := by
  rw [source_target_segment_statistics.update]
  split
  · exact ⟨hs, ht⟩
  · split
    · exact ⟨update_segments_ne_nil len _ hs, ht⟩
    · exact ⟨hs, update_segments_ne_nil len _ ht⟩

/-- C2: on each side, the sum of the bucket counts equals the recorded total
count: this holds after any sequence of `update` calls on a freshly
constructed statistics object, and a single `update` call preserves it on
any state whose bucket lists are nonempty (as all reachable states are). -/
theorem C2_bucket_sums_equal_totals :
    (∀ calls : List (ℚ × Bool), stats_inv (apply_updates fresh_stats calls)) ∧
    (∀ (s : source_target_segment_statistics) (len : ℚ) (b : Bool),
      s.source_segments ≠ [] → s.target_segments ≠ [] →
      stats_inv s → stats_inv (s.update len b)) := by
  refine ⟨?_, stats_inv_update⟩
  intro calls
  have base_inv : stats_inv fresh_stats :=
    ⟨counts_sum_build_segments 0 _, counts_sum_build_segments 0 _⟩
  have hP := apply_updates_preserve
    (fun s => (s.source_segments ≠ [] ∧ s.target_segments ≠ []) ∧ stats_inv s)
    (fun s len b hp =>
      ⟨update_sides_ne_nil s len b hp.1.1 hp.1.2,
        stats_inv_update s len b hp.1.1 hp.1.2 hp.2⟩)
    calls fresh_stats
    ⟨⟨build_segments_ne_nil 0 _, build_segments_ne_nil 0 _⟩, base_inv⟩
  exact hP.2

/-- Witness for C2: the invariant holds on the fresh state and is preserved
by a concrete `update 2 true` call. -/
theorem C2_witness :
    fresh_stats.source_segments ≠ [] ∧ fresh_stats.target_segments ≠ [] ∧
    stats_inv fresh_stats ∧ stats_inv (fresh_stats.update 2 true) := by
  have h := C2_bucket_sums_equal_totals
  have hs : fresh_stats.source_segments ≠ [] := build_segments_ne_nil 0 _
  have ht : fresh_stats.target_segments ≠ [] := build_segments_ne_nil 0 _
  have h0 : stats_inv fresh_stats := h.1 []
  exact ⟨hs, ht, h0, h.2 fresh_stats 2 true hs ht h0⟩

theorem totals_apply_updates (calls : List (ℚ × Bool)) :
    ∀ s : source_target_segment_statistics,
      (apply_updates s calls).total_length_source
          = s.total_length_source + ((calls.filter p_source).map Prod.fst).sum ∧
      (apply_updates s calls).total_count_source
          = s.total_count_source + ((calls.filter p_source).length : ℤ) ∧
      (apply_updates s calls).total_length_target
          = s.total_length_target + ((calls.filter p_target).map Prod.fst).sum ∧
      (apply_updates s calls).total_count_target
          = s.total_count_target + ((calls.filter p_target).length : ℤ) := by
  induction calls with
  | nil => intro s; simp [apply_updates]
  | cons c rest ih =>
      intro s
      have happ : apply_updates s (c :: rest) = apply_updates (s.update c.1 c.2) rest := rfl
      rw [happ]
      obtain ⟨ih1, ih2, ih3, ih4⟩ := ih (s.update c.1 c.2)
      rcases le_or_lt c.1 0 with hle | hpos
      · have hupd : s.update c.1 c.2 = s := by
          rw [source_target_segment_statistics.update, if_pos hle]
        have hps : p_source c = false := by
          simp [p_source, not_lt.mpr hle]
        have hpt : p_target c = false := by
          simp [p_target, not_lt.mpr hle]
        rw [hupd] at ih1 ih2 ih3 ih4
        rw [hupd]
        simp [List.filter_cons, hps, hpt, ih1, ih2, ih3, ih4]
      · cases hb : c.2
        · have hupd : s.update c.1 false = { s with
              total_count_target := s.total_count_target + 1
              total_length_target := s.total_length_target + c.1
              target_segments := update_segments c.1 s.target_segments } := by
            rw [source_target_segment_statistics.update, if_neg (not_le.mpr hpos)]
            simp
          have hps : p_source c = false := by simp [p_source, hb]
          have hpt : p_target c = true := by simp [p_target, hb, hpos]
          rw [hb] at ih1 ih2 ih3 ih4
          rw [hupd] at ih1 ih2 ih3 ih4
          rw [hupd]
          refine ⟨?_, ?_, ?_, ?_⟩
          · rw [ih1]
            simp [List.filter_cons, hps, hpt]
          · rw [ih2]
            simp [List.filter_cons, hps, hpt]
          · rw [ih3]
            simp [List.filter_cons, hps, hpt]
            ring
          · rw [ih4]
            simp [List.filter_cons, hps, hpt]
            ring
        · have hupd : s.update c.1 true = { s with
              total_count_source := s.total_count_source + 1
              total_length_source := s.total_length_source + c.1
              source_segments := update_segments c.1 s.source_segments } := by
            rw [source_target_segment_statistics.update, if_neg (not_le.mpr hpos)]
            simp
          have hps : p_source c = true := by simp [p_source, hb, hpos]
          have hpt : p_target c = false := by simp [p_target, hb]
          rw [hb] at ih1 ih2 ih3 ih4
          rw [hupd] at ih1 ih2 ih3 ih4
          rw [hupd]
          refine ⟨?_, ?_, ?_, ?_⟩
          · rw [ih1]
            simp [List.filter_cons, hps, hpt]
            ring
          · rw [ih2]
            simp [List.filter_cons, hps, hpt]
            ring
          · rw [ih3]
            simp [List.filter_cons, hps, hpt]
          · rw [ih4]
            simp [List.filter_cons, hps, hpt]

/-- C4: after any sequence of `update` calls on a freshly constructed
statistics object, `total_length_source` is the sum of the positive lengths
passed with `is_source = true` and `total_count_source` is the number of such
calls, and symmetrically for the target side. -/
theorem C4_totals_accumulate (calls : List (ℚ × Bool)) :
    (apply_updates fresh_stats calls).total_length_source
        = ((calls.filter p_source).map Prod.fst).sum ∧
    (apply_updates fresh_stats calls).total_count_source
        = ((calls.filter p_source).length : ℤ) ∧
    (apply_updates fresh_stats calls).total_length_target
        = ((calls.filter p_target).map Prod.fst).sum ∧
    (apply_updates fresh_stats calls).total_count_target
        = ((calls.filter p_target).length : ℤ) := by
  obtain ⟨h1, h2, h3, h4⟩ := totals_apply_updates calls fresh_stats
  have z1 : fresh_stats.total_length_source = 0 := rfl
  have z2 : fresh_stats.total_count_source = 0 := rfl
  have z3 : fresh_stats.total_length_target = 0 := rfl
  have z4 : fresh_stats.total_count_target = 0 := rfl
  rw [z1, zero_add] at h1
  rw [z2, zero_add] at h2
  rw [z3, zero_add] at h3
  rw [z4, zero_add] at h4
  exact ⟨h1, h2, h3, h4⟩


end ArcWelder
